import Mathlib

/-
  Verification of the mi8 voice/tool subsystem.

  Shallow embedding of:
    - src/sources/voice/voice_commands.py  (VoiceCommandProcessor)
    - src/sources/agents/enhanced_mcp_agent.py  (discover_mcp_servers, execute_mcp_tool)
    - src/tools/tool_executor.py  (ToolExecutor)

  Modelling conventions:
    - Python strings are modelled as ASCII `List Char` (`Str`).  `str.lower`,
      `str.strip`, `str.isdigit` are modelled on the ASCII range, which covers
      every string manipulated by the embedded code paths and every concrete
      input used below.
    - Python floats appearing in the code (the fixed confidences 0.8 / 0.3,
      volumes) are exact decimal constants, modelled as rationals.
    - External effects (spawned processes, the speech engines, the registered
      tool callables, the `re` library where a claim does not depend on the
      concrete regex) are modelled as explicit oracle parameters; the
      observable interactions are recorded in event traces.
    - `json.loads` / JSON-valued Python data are modelled by the `PyValue`
      inductive and a fuel-based parser for the float-free JSON fragment
      (objects, arrays, strings with the common escapes, integers, booleans,
      null).  All concrete JSON appearing in this development is inside that
      fragment.
-/

namespace Mi8

/-- Python strings, modelled as lists of characters. -/
abbrev Str := List Char

/-- Shorthand turning a Lean string literal into a `Str`. -/
def S (s : String) : Str := s.data

/-- The `\x7b` character (left curly brace). -/
def lbrace : Char := Char.ofNat 123

/-- The `\x7d` character (right curly brace). -/
def rbrace : Char := Char.ofNat 125

/-- The `\x27` character (single quote). -/
def squote : Char := Char.ofNat 39

/-- ASCII model of `str.lower` on a single character. -/
def pyLowerChar (c : Char) : Char :=
  if 'A' ≤ c ∧ c ≤ 'Z' then Char.ofNat (c.toNat + 32) else c

/-- ASCII model of `str.lower`. -/
def pyLower (s : Str) : Str := s.map pyLowerChar

/-- Python whitespace (the default `str.strip` character set). -/
def isPySpace (c : Char) : Bool :=
  c = ' ' ∨ c = '\t' ∨ c = '\n' ∨ c = '\r' ∨ c = Char.ofNat 11 ∨ c = Char.ofNat 12

/-- Model of `str.strip` (both ends). -/
def pyStrip (s : Str) : Str :=
  ((s.dropWhile isPySpace).reverse.dropWhile isPySpace).reverse

/-- Model of the Python substring test `pat in s`. -/
def pyInStr (pat : Str) : Str → Bool
  | [] => pat.isEmpty
  | c :: rest => pat.isPrefixOf (c :: rest) || pyInStr pat rest

/-- Model of `str.find`: index of the first occurrence of `pat`, if any. -/
def pyFind (pat : Str) : Str → Option Nat
  | [] => if pat.isEmpty then some 0 else none
  | c :: rest =>
    if pat.isPrefixOf (c :: rest) then some 0
    else (pyFind pat rest).map (· + 1)

/-- ASCII digit test. -/
def isAsciiDigit (c : Char) : Bool := '0' ≤ c ∧ c ≤ '9'

/-- Model of `str.isdigit` (ASCII fragment): nonempty and all digits. -/
def pyIsDigit (s : Str) : Bool := !s.isEmpty && s.all isAsciiDigit

/-- Numeric value of an all-digit string (model of `int(s)` on such strings). -/
def digitsToNat (s : Str) : Nat :=
  s.foldl (fun n c => n * 10 + (c.toNat - '0'.toNat)) 0

/-- Model of `s.split(sep)` for a single-character separator: always returns at
least one piece, does not drop empty pieces (Python semantics). -/
def pySplitChar (sep : Char) : Str → List Str
  | [] => [[]]
  | c :: rest =>
    let r := pySplitChar sep rest
    if c = sep then [] :: r
    else
      match r with
      | [] => [[c]]
      | p :: ps => (c :: p) :: ps

/-- Values of the dynamically-typed Python data manipulated by the embedded
code: the JSON-expressible fragment (floats excluded; no claim involves one). -/
inductive PyValue where
  | none
  | bool (b : Bool)
  | int (n : ℤ)
  | str (s : Str)
  | list (xs : List PyValue)
  | dict (kvs : List (Str × PyValue))

mutual

/-- Decidable equality on `PyValue` (hand-rolled: the deriving handler does
not support this nested inductive). -/
def PyValue.decEq : (a b : PyValue) → Decidable (a = b)
  | .none, .none => isTrue rfl
  | .bool a, .bool b =>
    if h : a = b then isTrue (by rw [h])
    else isFalse (by intro hh; cases hh; exact h rfl)
  | .int a, .int b =>
    if h : a = b then isTrue (by rw [h])
    else isFalse (by intro hh; cases hh; exact h rfl)
  | .str a, .str b =>
    if h : a = b then isTrue (by rw [h])
    else isFalse (by intro hh; cases hh; exact h rfl)
  | .list a, .list b =>
    match PyValue.decEqList a b with
    | isTrue h => isTrue (by rw [h])
    | isFalse h => isFalse (by intro hh; cases hh; exact h rfl)
  | .dict a, .dict b =>
    match PyValue.decEqKvs a b with
    | isTrue h => isTrue (by rw [h])
    | isFalse h => isFalse (by intro hh; cases hh; exact h rfl)
  | .none, .bool _ => isFalse (by intro h; cases h)
  | .none, .int _ => isFalse (by intro h; cases h)
  | .none, .str _ => isFalse (by intro h; cases h)
  | .none, .list _ => isFalse (by intro h; cases h)
  | .none, .dict _ => isFalse (by intro h; cases h)
  | .bool _, .none => isFalse (by intro h; cases h)
  | .bool _, .int _ => isFalse (by intro h; cases h)
  | .bool _, .str _ => isFalse (by intro h; cases h)
  | .bool _, .list _ => isFalse (by intro h; cases h)
  | .bool _, .dict _ => isFalse (by intro h; cases h)
  | .int _, .none => isFalse (by intro h; cases h)
  | .int _, .bool _ => isFalse (by intro h; cases h)
  | .int _, .str _ => isFalse (by intro h; cases h)
  | .int _, .list _ => isFalse (by intro h; cases h)
  | .int _, .dict _ => isFalse (by intro h; cases h)
  | .str _, .none => isFalse (by intro h; cases h)
  | .str _, .bool _ => isFalse (by intro h; cases h)
  | .str _, .int _ => isFalse (by intro h; cases h)
  | .str _, .list _ => isFalse (by intro h; cases h)
  | .str _, .dict _ => isFalse (by intro h; cases h)
  | .list _, .none => isFalse (by intro h; cases h)
  | .list _, .bool _ => isFalse (by intro h; cases h)
  | .list _, .int _ => isFalse (by intro h; cases h)
  | .list _, .str _ => isFalse (by intro h; cases h)
  | .list _, .dict _ => isFalse (by intro h; cases h)
  | .dict _, .none => isFalse (by intro h; cases h)
  | .dict _, .bool _ => isFalse (by intro h; cases h)
  | .dict _, .int _ => isFalse (by intro h; cases h)
  | .dict _, .str _ => isFalse (by intro h; cases h)
  | .dict _, .list _ => isFalse (by intro h; cases h)

/-- Decidable equality on lists of `PyValue`. -/
def PyValue.decEqList : (a b : List PyValue) → Decidable (a = b)
  | [], [] => isTrue rfl
  | [], _ :: _ => isFalse (by intro h; cases h)
  | _ :: _, [] => isFalse (by intro h; cases h)
  | x :: xs, y :: ys =>
    match PyValue.decEq x y with
    | isFalse h => isFalse (by intro hh; cases hh; exact h rfl)
    | isTrue h1 =>
      match PyValue.decEqList xs ys with
      | isTrue h2 => isTrue (by rw [h1, h2])
      | isFalse h2 => isFalse (by intro hh; cases hh; exact h2 rfl)

/-- Decidable equality on key/value lists of `PyValue`. -/
def PyValue.decEqKvs : (a b : List (Str × PyValue)) → Decidable (a = b)
  | [], [] => isTrue rfl
  | [], _ :: _ => isFalse (by intro h; cases h)
  | _ :: _, [] => isFalse (by intro h; cases h)
  | (k, v) :: xs, (k2, v2) :: ys =>
    if hk : k = k2 then
      match PyValue.decEq v v2 with
      | isFalse h => isFalse (by intro hh; cases hh; exact h rfl)
      | isTrue hv =>
        match PyValue.decEqKvs xs ys with
        | isTrue h2 => isTrue (by rw [hk, hv, h2])
        | isFalse h2 => isFalse (by intro hh; cases hh; exact h2 rfl)
    else isFalse (by intro hh; cases hh; exact hk rfl)

end

instance : DecidableEq PyValue := PyValue.decEq

/-- Python dict lookup `d[k]` (first binding wins; dict construction below
keeps keys unique, mirroring Python dicts). -/
def dictLookup (k : Str) : List (Str × PyValue) → Option PyValue
  | [] => Option.none
  | kv :: rest => if kv.1 = k then some kv.2 else dictLookup k rest

/-- Python dict assignment `d[k] = v`: replaces in place, preserving insertion
order, else appends. -/
def dictSet : List (Str × PyValue) → Str → PyValue → List (Str × PyValue)
  | [], k, v => [(k, v)]
  | kv :: rest, k, v =>
    if kv.1 = k then (k, v) :: rest else kv :: dictSet rest k v

/-- Python `d.update(u)`: assign every binding of `u` into `d`, in order. -/
def dictUpdate (d : List (Str × PyValue)) (u : List (Str × PyValue)) :
    List (Str × PyValue) :=
  u.foldl (fun acc kv => dictSet acc kv.1 kv.2) d

/-- Python `d.get(k, default)`. -/
def dictGet (kvs : List (Str × PyValue)) (k : Str) (default : PyValue) : PyValue :=
  match dictLookup k kvs with
  | some v => v
  | Option.none => default

/-- Python truthiness of a value. -/
def pyTruthy : PyValue → Bool
  | .none => false
  | .bool b => b
  | .int n => n ≠ 0
  | .str s => !s.isEmpty
  | .list xs => !xs.isEmpty
  | .dict kvs => !kvs.isEmpty

/-- Python membership `key in v` for a string `key`: key test on dicts,
element equality on lists (a string never equals a non-string), substring test
on strings, `TypeError` (as `.error msg`) on non-containers. -/
def pyMem (key : Str) : PyValue → Except Str Bool
  | .dict kvs => .ok (kvs.any (fun kv => kv.1 = key))
  | .list xs => .ok (xs.any (fun v => match v with | .str s => s = key | _ => false))
  | .str s => .ok (pyInStr key s)
  | .int _ => .error (S "argument of type \x27int\x27 is not iterable")
  | .bool _ => .error (S "argument of type \x27bool\x27 is not iterable")
  | .none => .error (S "argument of type \x27NoneType\x27 is not iterable")

/-- Python subscription `v[key]` for a string `key`: dict lookup (`KeyError`
if absent), `TypeError` on everything else. -/
def pyGetItem (v : PyValue) (key : Str) : Except Str PyValue :=
  match v with
  | .dict kvs =>
    match dictLookup key kvs with
    | some x => .ok x
    | Option.none => .error (S "KeyError")
  | .str _ => .error (S "string indices must be integers")
  | .list _ => .error (S "list indices must be integers or slices, not str")
  | _ => .error (S "object is not subscriptable")

/-- JSON whitespace. -/
def isJsonWs (c : Char) : Bool := c = ' ' ∨ c = '\t' ∨ c = '\n' ∨ c = '\r'

/-- Skip JSON whitespace. -/
def skipWs (s : Str) : Str := s.dropWhile isJsonWs

/-- Body of a JSON string after the opening quote: returns content and the
rest after the closing quote.  Supports the common escapes; `\u` escapes are
outside the modelled fragment. -/
def jsonStringBody : Str → Option (Str × Str)
  | [] => Option.none
  | c :: rest =>
    if c = '"' then some ([], rest)
    else if c = '\\' then
      match rest with
      | [] => Option.none
      | e :: rest2 =>
        let dec : Option Char :=
          if e = '"' then some '"'
          else if e = '\\' then some '\\'
          else if e = '/' then some '/'
          else if e = 'n' then some '\n'
          else if e = 't' then some '\t'
          else if e = 'r' then some '\r'
          else if e = 'b' then some (Char.ofNat 8)
          else if e = 'f' then some (Char.ofNat 12)
          else Option.none
        match dec with
        | some d =>
          match jsonStringBody rest2 with
          | some (tail, rem) => some (d :: tail, rem)
          | Option.none => Option.none
        | Option.none => Option.none
    else
      match jsonStringBody rest with
      | some (tail, rem) => some (c :: tail, rem)
      | Option.none => Option.none

/-- A JSON integer literal: optional minus, one or more digits, not followed
by a fraction or exponent (floats are outside the modelled fragment). -/
def jsonNumber (s : Str) : Option (PyValue × Str) :=
  let (neg, s1) : Bool × Str :=
    match s with
    | c :: rest => if c = '-' then (true, rest) else (false, s)
    | [] => (false, [])
  let digits := s1.takeWhile isAsciiDigit
  let rest := s1.dropWhile isAsciiDigit
  if digits.isEmpty then Option.none
  else
    match rest with
    | c :: _ => if c = '.' ∨ c = 'e' ∨ c = 'E' then Option.none
                else some (.int (if neg then -(digitsToNat digits : ℤ) else digitsToNat digits), rest)
    | [] => some (.int (if neg then -(digitsToNat digits : ℤ) else digitsToNat digits), [])

mutual

/-- Fuel-based parser for one JSON value; model of `json.loads` (see
`jsonLoads`).  Duplicate object keys keep the last binding, as Python does. -/
def jsonVal : Nat → Str → Option (PyValue × Str)
  | 0, _ => Option.none
  | fuel + 1, s =>
    match skipWs s with
    | [] => Option.none
    | c :: rest =>
      if c = lbrace then jsonObjItems fuel [] (skipWs rest) true
      else if c = '[' then jsonArrItems fuel [] (skipWs rest) true
      else if c = '"' then
        match jsonStringBody rest with
        | some (content, rem) => some (.str content, rem)
        | Option.none => Option.none
      else if (S "null").isPrefixOf (c :: rest) then some (.none, (c :: rest).drop 4)
      else if (S "true").isPrefixOf (c :: rest) then some (.bool true, (c :: rest).drop 4)
      else if (S "false").isPrefixOf (c :: rest) then some (.bool false, (c :: rest).drop 5)
      else jsonNumber (c :: rest)

/-- Items of a JSON object after the opening brace (`first` marks that no
entry has been read yet, so a closing brace is allowed immediately). -/
def jsonObjItems : Nat → List (Str × PyValue) → Str → Bool → Option (PyValue × Str)
  | 0, _, _, _ => Option.none
  | _ + 1, _, [], _ => Option.none
  | fuel + 1, acc, c :: rest, first =>
    if c = rbrace ∧ first then some (.dict acc, rest)
    else
      match (c :: rest) with
      | k :: krest =>
        if k = '"' then
          match jsonStringBody krest with
          | some (keyStr, afterKey) =>
            match skipWs afterKey with
            | ':' :: afterColon =>
              match jsonVal fuel afterColon with
              | some (v, afterVal) =>
                let acc2 := dictSet acc keyStr v
                match skipWs afterVal with
                | ',' :: afterComma => jsonObjItems fuel acc2 (skipWs afterComma) false
                | d :: afterBrace =>
                  if d = rbrace then some (.dict acc2, afterBrace) else Option.none
                | [] => Option.none
              | Option.none => Option.none
            | _ => Option.none
          | Option.none => Option.none
        else Option.none
      | [] => Option.none

/-- Items of a JSON array after the opening bracket. -/
def jsonArrItems : Nat → List PyValue → Str → Bool → Option (PyValue × Str)
  | 0, _, _, _ => Option.none
  | _ + 1, _, [], _ => Option.none
  | fuel + 1, acc, c :: rest, first =>
    if c = ']' ∧ first then some (.list acc, rest)
    else
      match jsonVal fuel (c :: rest) with
      | some (v, afterVal) =>
        let acc2 := acc ++ [v]
        match skipWs afterVal with
        | ',' :: afterComma => jsonArrItems fuel acc2 (skipWs afterComma) false
        | ']' :: afterBracket => some (.list acc2, afterBracket)
        | _ => Option.none
      | Option.none => Option.none

end

/-- Model of `json.loads`: parse one value, require only whitespace after it.
Returns `none` where Python raises `json.JSONDecodeError` (or where the input
is outside the float-free fragment, which no embedded code path or concrete
input below exercises). -/
def jsonLoads (s : Str) : Option PyValue :=
  match jsonVal (s.length + 2) s with
  | some (v, rest) => if (skipWs rest).isEmpty then some v else Option.none
  | Option.none => Option.none

/-! ## Voice command processing (src/sources/voice/voice_commands.py) -/

/-- `CommandType` enum (voice_commands.py lines 19-25). -/
inductive CommandType where
  | mcp_control
  | agent_request
  | system_control
  | conversation
  | unknown
deriving DecidableEq, Repr

/-- `VoiceCommand` dataclass (voice_commands.py lines 27-35).  `confidence`
and `timestamp` are Python floats, modelled as rationals (the code only ever
stores the exact constants 0.8 / 0.3 in `confidence`). -/
structure VoiceCommand where
  original_text : Str
  command_type : CommandType
  action : Str
  parameters : List (Str × Str)
  confidence : ℚ
  timestamp : ℚ
deriving DecidableEq

/-- One entry of the command pattern table: regex source text, action name,
parameter-name → capture-group-index map. -/
structure PatternInfo where
  pattern : Str
  action : Str
  params : List (Str × Nat)

/-- The ordered pattern table of `_initialize_command_patterns`
(voice_commands.py lines 87-188), in dict insertion order. -/
def command_patterns : List (CommandType × List PatternInfo) :=
  [ (.mcp_control,
      [ ⟨S "open (?:file )?(.+?) in (?:cursor|editor)", S "cursor_open_file", [(S "file_path", 1)]⟩,
        ⟨S "remember (?:that )?(.+)", S "memory_save", [(S "content", 1)]⟩,
        ⟨S "watch (?:the )?(.+?) (?:directory|folder|files)", S "file_watch", [(S "path", 1)]⟩,
        ⟨S "create (?:a )?file (?:called )?(.+)", S "cursor_create_file", [(S "file_name", 1)]⟩,
        ⟨S "search (?:for )?(.+?) in (?:files|project)", S "cursor_search_files", [(S "query", 1)]⟩ ]),
    (.agent_request,
      [ ⟨S "(?:write|code|create) (?:a )?(.+?) (?:function|script|program)", S "code_request", [(S "description", 1)]⟩,
        ⟨S "(?:browse|visit|go to) (.+)", S "web_browse", [(S "url", 1)]⟩,
        ⟨S "(?:search|find|look up) (.+?) (?:on the web|online)", S "web_search", [(S "query", 1)]⟩,
        ⟨S "(?:translate|convert) (.+?) (?:to|into) (.+)", S "translate", [(S "text", 1), (S "target_language", 2)]⟩ ]),
    (.system_control,
      [ ⟨S "(?:start|begin) (?:listening|voice (?:mode|control))", S "start_listening", []⟩,
        ⟨S "(?:stop|end|quit) (?:listening|voice (?:mode|control))", S "stop_listening", []⟩,
        ⟨S "(?:set|change) voice (?:to )?(.+)", S "change_voice", [(S "voice_name", 1)]⟩,
        ⟨S "(?:set|change) (?:speech )?(?:rate|speed) (?:to )?(.+)", S "change_speech_rate", [(S "rate", 1)]⟩,
        ⟨S "(?:mute|unmute|silence)", S "toggle_mute", []⟩ ]),
    (.conversation,
      [ ⟨S "(?:hello|hi|hey)(?:\\s+.+)?", S "greeting", []⟩,
        ⟨S "(?:thank you|thanks)(?:\\s+.+)?", S "thanks", []⟩,
        ⟨S "(?:goodbye|bye|see you later)(?:\\s+.+)?", S "goodbye", []⟩,
        ⟨S "(?:help|what can you do)", S "help", []⟩ ]) ]

/-- The result of a successful `re.search`: the captured groups in order.
Every group referenced by a `params` map in the table above is a mandatory
group of its pattern, so it always participates in a match; the external
`re` library is modelled as an oracle `Str → Str → Option PyMatch` taking the
pattern text and the subject. -/
structure PyMatch where
  groups : List Str

/-- Parameter extraction (voice_commands.py lines 210-213): copy each mapped
capture group, stripped, when the pattern has that many groups. -/
def extractParams (ps : List (Str × Nat)) (m : PyMatch) : List (Str × Str) :=
  ps.foldl
    (fun acc p =>
      if p.2 ≤ m.groups.length then acc ++ [(p.1, pyStrip (m.groups.getD (p.2 - 1) []))]
      else acc)
    []

/-- Inner loop of `parse_command`: first matching pattern of one type wins,
with the fixed matched-pattern confidence 0.8. -/
def tryPatternList (search : Str → Str → Option PyMatch) (now : ℚ) (text : Str)
    (ct : CommandType) : List PatternInfo → Option VoiceCommand
  | [] => Option.none
  | p :: rest =>
    match search p.pattern text with
    | some m =>
      some { original_text := text, command_type := ct, action := p.action,
             parameters := extractParams p.params m, confidence := 8/10, timestamp := now }
    | Option.none => tryPatternList search now text ct rest

/-- Outer loop of `parse_command` over the typed pattern table. -/
def tryTable (search : Str → Str → Option PyMatch) (now : ℚ) (text : Str) :
    List (CommandType × List PatternInfo) → Option VoiceCommand
  | [] => Option.none
  | (ct, ps) :: rest =>
    match tryPatternList search now text ct ps with
    | some c => some c
    | Option.none => tryTable search now text rest

/-- `VoiceCommandProcessor.parse_command` (voice_commands.py lines 190-232).
`now` models `time.time()`; `search` models `re.search` with `IGNORECASE`. -/
def parse_command (search : Str → Str → Option PyMatch) (now : ℚ) (text0 : Str) :
    VoiceCommand :=
  let text := pyStrip (pyLower text0)
  match tryTable search now text command_patterns with
  | some c => c
  | Option.none =>
    { original_text := text, command_type := .unknown, action := S "general_query",
      parameters := [(S "query", text)], confidence := 3/10, timestamp := now }

/-- Mutable processor state owned by `VoiceCommandProcessor`: `wake_word` is
stored lowercased by `__init__` (line 64). -/
structure VoiceState where
  wake_word : Str
  wake_word_mode : Bool
  listening : Bool
  command_history : List VoiceCommand
  max_history : Nat
deriving DecidableEq

/-- Observable side effects of processing one utterance. -/
inductive VEvent where
  | speak (text : Str)
  | wakeCallback
  | dispatch (c : VoiceCommand)
  | setVoice (voiceId : Str)
  | setRate (rate : Nat)
  | setVolume (vol : ℚ)
deriving DecidableEq

/-- Outcome of the external `on_command_detected` handler callback. -/
inductive HandlerOut where
  | ok (reply : Str)
  | raise (msg : Str)

/-- Oracle for the text-to-speech engine state read by system commands:
available voices (id, name), per-voice `set_voice` success, current volume. -/
structure TTSOracle where
  voices : List (Str × Str)
  setVoiceOk : Str → Bool
  volume : ℚ

/-- `dict.get` on the string-valued parameter mapping. -/
def paramGet (ps : List (Str × Str)) (k : Str) (d : Str) : Str :=
  match ps.find? (fun p => p.1 = k) with
  | some p => p.2
  | Option.none => d

/-- Leftmost maximal digit run: model of `re.search(r"(\d+)", s)`. -/
def firstDigitRun : Str → Option Str
  | [] => Option.none
  | c :: rest =>
    if isAsciiDigit c then some ((c :: rest).takeWhile isAsciiDigit)
    else firstDigitRun rest

/-- Decimal rendering of a natural number. -/
def natToStr (n : Nat) : Str := (Nat.repr n).data

/-- Voice lookup loop of the `change_voice` branch (lines 325-331): first
voice whose name contains the requested name. -/
def findVoice (voiceName : Str) : List (Str × Str) → Option (Str × Str)
  | [] => Option.none
  | v :: rest =>
    if pyInStr voiceName (pyLower v.2) then some v else findVoice voiceName rest

/-- `_handle_system_command` (voice_commands.py lines 307-367): returns the
updated state, the reply text, and the TTS interactions. -/
def handle_system_command (tts : TTSOracle) (st : VoiceState) (c : VoiceCommand) :
    VoiceState × Str × List VEvent :=
  if c.action = S "start_listening" then
    ({ st with wake_word_mode := false },
     S "Continuous listening activated. I\x27m listening for commands.", [])
  else if c.action = S "stop_listening" then
    ({ st with wake_word_mode := true },
     S "Switching to wake word mode. Say \x27AgenticSeek\x27 to get my attention.", [])
  else if c.action = S "change_voice" then
    let voiceName := pyLower (paramGet c.parameters (S "voice_name") [])
    match findVoice voiceName tts.voices with
    | some v =>
      if tts.setVoiceOk v.1 then (st, S "Voice changed to " ++ v.2, [.setVoice v.1])
      else (st, S "Failed to change voice", [.setVoice v.1])
    | Option.none => (st, S "Voice \x27" ++ voiceName ++ S "\x27 not found", [])
  else if c.action = S "change_speech_rate" then
    let rateText := pyLower (paramGet c.parameters (S "rate") [])
    if pyInStr (S "slow") rateText then
      (st, S "Speech rate set to 150 words per minute", [.setRate 150])
    else if pyInStr (S "fast") rateText then
      (st, S "Speech rate set to 250 words per minute", [.setRate 250])
    else if pyInStr (S "normal") rateText then
      (st, S "Speech rate set to 200 words per minute", [.setRate 200])
    else
      match firstDigitRun rateText with
      | some ds =>
        let rate := digitsToNat ds
        (st, S "Speech rate set to " ++ natToStr rate ++ S " words per minute", [.setRate rate])
      | Option.none => (st, S "I didn\x27t understand the speech rate", [])
  else if c.action = S "toggle_mute" then
    if tts.volume > 0 then (st, S "Muted", [.setVolume 0])
    else (st, S "Unmuted", [.setVolume (8/10)])
  else (st, S "System command not implemented", [])

/-- `_handle_conversation_command` (voice_commands.py lines 369-380). -/
def handle_conversation_command (c : VoiceCommand) : Str :=
  if c.action = S "greeting" then S "Hello! I\x27m ready to help you with AgenticSeek."
  else if c.action = S "thanks" then S "You\x27re welcome! Happy to help."
  else if c.action = S "goodbye" then S "Goodbye! Have a great day."
  else if c.action = S "help" then
    S "I can help you control Cursor, manage memory, watch files, browse the web, write code, and more. Just speak naturally!"
  else S "I understand you\x27re trying to chat, but I\x27m not sure how to respond to that."

/-- `_execute_command` (voice_commands.py lines 278-305): system and
conversation commands are handled internally; everything else goes to the
optional external handler, whose exceptions are caught and replaced by the
fixed apology reply. -/
def execute_command (handler : Option (VoiceCommand → HandlerOut)) (tts : TTSOracle)
    (st : VoiceState) (c : VoiceCommand) : VoiceState × Str × List VEvent :=
  if c.command_type = .system_control then handle_system_command tts st c
  else if c.command_type = .conversation then (st, handle_conversation_command c, [])
  else
    match handler with
    | some h =>
      match h c with
      | .ok reply => (st, reply, [.dispatch c])
      | .raise _ => (st, S "Sorry, I couldn\x27t execute that command.", [.dispatch c])
    | Option.none =>
      (st, S "Command recognized: " ++ c.action ++ S ". No handler available.", [])

/-- History insertion (voice_commands.py lines 261-263): append, then drop the
oldest entry when the bound is exceeded. -/
def pushHistory (maxh : Nat) (h : List VoiceCommand) (c : VoiceCommand) :
    List VoiceCommand :=
  let h2 := h ++ [c]
  if maxh < h2.length then h2.tail else h2

/-- Model of `re.sub(pat, "", s, flags=IGNORECASE)` for the literal wake-word
pattern (the configured wake word contains no regex metacharacters): removes
every case-insensitive, non-overlapping occurrence, scanning left to right. -/
def removeAllCI (pat : Str) (s : Str) : Str := go s.length s
where
  go : Nat → Str → Str
    | _, [] => []
    | 0, s => s
    | f + 1, c :: rest =>
      if !pat.isEmpty && (pyLower pat).isPrefixOf (pyLower (c :: rest)) then
        go f ((c :: rest).drop pat.length)
      else c :: go f rest

/-- Shared tail of `_process_speech` (voice_commands.py lines 257-270): parse,
append to the bounded history, execute, and speak any nonempty reply.  `ev0`
holds events already emitted by the wake-word branch. -/
def processParsed (search : Str → Str → Option PyMatch) (now : ℚ)
    (handler : Option (VoiceCommand → HandlerOut)) (tts : TTSOracle)
    (st : VoiceState) (text : Str) (ev0 : List VEvent) : VoiceState × List VEvent :=
  let c := parse_command search now text
  let st1 := { st with command_history := pushHistory st.max_history st.command_history c }
  let r := execute_command handler tts st1 c
  let ev2 := if r.2.1.isEmpty then [] else [VEvent.speak r.2.1]
  (r.1, ev0 ++ r.2.2 ++ ev2)

/-- `_process_speech` (voice_commands.py lines 234-276).  `hasWakeCb` models
whether `on_wake_word_detected` is set.  Returns the updated processor state
and the emitted events; an utterance without the wake word while in wake-word
mode returns the state unchanged with no events (lines 253-255). -/
def process_speech (search : Str → Str → Option PyMatch) (now : ℚ)
    (handler : Option (VoiceCommand → HandlerOut)) (hasWakeCb : Bool)
    (tts : TTSOracle) (st : VoiceState) (rawText : Str) : VoiceState × List VEvent :=
  let text := pyStrip rawText
  if text.isEmpty then (st, [])
  else if st.wake_word_mode then
    if pyInStr st.wake_word (pyLower text) then
      let ev0 := VEvent.speak (S "Yes?") :: (if hasWakeCb then [VEvent.wakeCallback] else [])
      let text2 := pyStrip (removeAllCI st.wake_word text)
      if text2.isEmpty then (st, ev0)
      else processParsed search now handler tts st text2 ev0
    else (st, [])
  else processParsed search now handler tts st text []

/-! ## MCP tool-server gateway (src/sources/agents/enhanced_mcp_agent.py) -/

/-- What reading one configuration path yields (enhanced_mcp_agent.py lines
51-62): path absent, open/`json.load` raised, or a parsed JSON document. -/
inductive ConfigRead where
  | absent
  | failed
  | config (doc : PyValue)

/-- `EnhancedMCPAgent.discover_mcp_servers` (lines 40-64), as a function of
the outcome of each configuration path in order: for each readable document
with an `mcpServers` mapping, `servers.update(...)` merges its entries into
the accumulated table.  A document whose `mcpServers` probe or subscription
raises is skipped by the enclosing `except` clause; the claims below only
quantify over mapping-shaped documents. -/
def discover_mcp_servers (reads : List ConfigRead) : List (Str × PyValue) :=
  reads.foldl
    (fun servers r =>
      match r with
      | .absent => servers
      | .failed => servers
      | .config doc =>
        match pyMem (S "mcpServers") doc with
        | .ok true =>
          match pyGetItem doc (S "mcpServers") with
          | .ok (.dict kvs) => dictUpdate servers kvs
          | _ => servers
        | _ => servers)
    []

/-- Observable gateway interactions of a single `execute_mcp_tool` call. -/
inductive MEvent where
  | spawn (command : List PyValue) (env : List (Str × PyValue))
  | write (request : PyValue)
  | kill
deriving DecidableEq

/-- Oracle for the spawned process of one call: `Popen` raising, the
`communicate` timeout, or an exit with return code and captured streams. -/
inductive ProcBehavior where
  | spawnRaises (msg : Str)
  | timesOut
  | exits (returncode : ℤ) (stdout stderr : Str)

/-- Result of `execute_mcp_tool`: a returned Python value, or an exception
escaping the function (only the `command` construction on lines 101-102 sits
outside the `try` block). -/
inductive MCPOut where
  | ok (v : PyValue)
  | uncaught (msg : Str)
deriving DecidableEq

/-- Response scan of `execute_mcp_tool` (lines 133-144): the first nonblank
line that `json.loads` accepts is probed for a `result` then an `error`
field with the Python `in` operator; a `TypeError` from the probe or the
subscription escapes to the enclosing `except Exception` handler (modelled as
`.error msg`), a `JSONDecodeError` just continues the loop, and a parsed
object with neither field also continues the loop.  `.ok none` means the loop
ran out of lines. -/
def scanLines : List Str → Except Str (Option PyValue)
  | [] => .ok Option.none
  | line :: rest =>
    if (pyStrip line).isEmpty then scanLines rest
    else
      match jsonLoads line with
      | Option.none => scanLines rest
      | some resp =>
        match pyMem (S "result") resp with
        | .error m => .error m
        | .ok true =>
          match pyGetItem resp (S "result") with
          | .error m => .error m
          | .ok v => .ok (some v)
        | .ok false =>
          match pyMem (S "error") resp with
          | .error m => .error m
          | .ok true =>
            match pyGetItem resp (S "error") with
            | .error m => .error m
            | .ok v => .ok (some (.dict [(S "error", v)]))
          | .ok false => scanLines rest

/-- Helper producing the `{"error": msg}` payloads of the gateway. -/
def errDict (msg : Str) : PyValue := .dict [(S "error", .str msg)]

/-- `EnhancedMCPAgent.execute_mcp_tool` (lines 94-150).  `osEnviron` models
`os.environ`; `proc` models the spawned process.  Returns the Python-level
result and the trace of process interactions; an unknown server name returns
the error payload immediately with an empty trace (lines 98-99). -/
def execute_mcp_tool (servers : List (Str × PyValue)) (osEnviron : List (Str × PyValue))
    (proc : ProcBehavior) (serverName toolName : Str) (args : PyValue) :
    MCPOut × List MEvent :=
  match dictLookup serverName servers with
  | Option.none =>
    (.ok (errDict (S "MCP server \x27" ++ serverName ++ S "\x27 not found")), [])
  | some serverConfig =>
    -- command = [server_config["command"]] + server_config.get("args", [])
    -- (outside the try block: failures here escape the function)
    match serverConfig with
    | .dict cfg =>
      match dictLookup (S "command") cfg with
      | Option.none => (.uncaught (S "KeyError: \x27command\x27"), [])
      | some cmd =>
        match dictGet cfg (S "args") (.list []) with
        | .list cmdArgs =>
          let command := cmd :: cmdArgs
          let request : PyValue :=
            .dict [ (S "jsonrpc", .str (S "2.0")), (S "id", .int 1),
                    (S "method", .str (S "tools/call")),
                    (S "params", .dict [ (S "name", .str toolName),
                                         (S "arguments", if pyTruthy args then args else .dict []) ]) ]
          -- body of the try block (lines 115-150)
          match dictGet cfg (S "env") (.dict []) with
          | .dict envOverrides =>
            let env := dictUpdate osEnviron envOverrides
            match proc with
            | .spawnRaises m =>
              (.ok (errDict (S "Failed to execute MCP tool: " ++ m)), [])
            | .timesOut =>
              (.ok (errDict (S "MCP server timeout")),
               [.spawn command env, .write request, .kill])
            | .exits rc stdout stderr =>
              let trace := [MEvent.spawn command env, MEvent.write request]
              if rc ≠ 0 then
                (.ok (errDict (S "MCP server error: " ++ stderr)), trace)
              else
                match scanLines (pySplitChar '\n' (pyStrip stdout)) with
                | .ok (some payload) => (.ok payload, trace)
                | .ok Option.none =>
                  (.ok (errDict (S "No valid response from MCP server")), trace)
                | .error m =>
                  (.ok (errDict (S "Failed to execute MCP tool: " ++ m)), trace)
          | _ =>
            -- dict(os.environ, **non_mapping) raises inside the try block
            (.ok (errDict (S "Failed to execute MCP tool: argument of type is not a mapping")), [])
        | _ => (.uncaught (S "TypeError: can only concatenate list to list"), [])
    | _ => (.uncaught (S "TypeError: not subscriptable"), [])

/-! ## Tool executor (src/tools/tool_executor.py)

The three tool-call regexes of `parse_tool_calls` (lines 96-103) and the
argument regex of line 120 are implemented as direct scanners; each scanner's
doc comment names the regex literal it implements (flags `IGNORECASE|DOTALL`
for the three patterns, no flags for the argument regex). -/

/-- Regex `\w` on ASCII. -/
def isWordChar (c : Char) : Bool :=
  ('a' ≤ c ∧ c ≤ 'z') ∨ ('A' ≤ c ∧ c ≤ 'Z') ∨ isAsciiDigit c ∨ c = '_'

/-- Case-insensitive literal: consume `lit` and return the rest. -/
def litCI (lit : Str) (t : Str) : Option Str :=
  if (pyLower lit).isPrefixOf (pyLower t) then some (t.drop lit.length) else Option.none

/-- Regex `(\w+)`: a nonempty maximal word-character run, plus the rest. -/
def word1 (t : Str) : Option (Str × Str) :=
  let w := t.takeWhile isWordChar
  if w.isEmpty then Option.none else some (w, t.dropWhile isWordChar)

/-- Lazy scan `(.*?)` up to the first `stopAt` whose following text satisfies
`after`; returns the content before `stopAt` and the rest after it. -/
def scanLazy (stopAt : Char) (after : Str → Bool) : Str → Option (Str × Str)
  | [] => Option.none
  | x :: rest =>
    if x = stopAt ∧ after rest then some ([], rest)
    else
      match scanLazy stopAt after rest with
      | some pr => some (x :: pr.1, pr.2)
      | Option.none => Option.none

/-- Anchored attempt of pattern 1, regex
`TOOL_CALL:\s*(\w+)\s*\((.*?)\)`: returns (group 1, group 2, rest). -/
def p1MatchAt (t : Str) : Option (Str × Option Str × Str) :=
  match litCI (S "TOOL_CALL:") t with
  | Option.none => Option.none
  | some t1 =>
    match word1 (t1.dropWhile isPySpace) with
    | Option.none => Option.none
    | some (w, t3) =>
      match t3.dropWhile isPySpace with
      | '(' :: t5 =>
        match scanLazy ')' (fun _ => true) t5 with
        | some (content, t6) => some (w, some content, t6)
        | Option.none => Option.none
      | _ => Option.none

/-- Anchored attempt of pattern 2, regex
`\[TOOL:\s*(\w+)(?:,\s*args:\s*({.*?}))?\]`: the optional argument part is
tried greedily (its lazy brace group stops at the first closing brace that is
immediately followed by the closing bracket) and falls back to the bare
`\]`. -/
def p2MatchAt (t : Str) : Option (Str × Option Str × Str) :=
  match litCI (S "[TOOL:") t with
  | Option.none => Option.none
  | some t1 =>
    match word1 (t1.dropWhile isPySpace) with
    | Option.none => Option.none
    | some (w, t3) =>
      let tryArgs : Option (Str × Str) :=
        match t3 with
        | ',' :: t4 =>
          match litCI (S "args:") (t4.dropWhile isPySpace) with
          | Option.none => Option.none
          | some t5 =>
            match t5.dropWhile isPySpace with
            | b :: t6 =>
              if b = lbrace then
                match scanLazy rbrace (fun r => r.head? = some ']') t6 with
                | some (content, t7) =>
                  match t7 with
                  | ']' :: t8 => some (lbrace :: content ++ [rbrace], t8)
                  | _ => Option.none
                | Option.none => Option.none
              else Option.none
            | [] => Option.none
        | _ => Option.none
      match tryArgs with
      | some (g2, rest) => some (w, some g2, rest)
      | Option.none =>
        match t3 with
        | ']' :: t4 => some (w, Option.none, t4)
        | _ => Option.none

/-- Anchored attempt of pattern 3, regex
`use\s+tool:\s*(\w+)(?:\s+with\s+args\s*({.*?}))?`. -/
def p3MatchAt (t : Str) : Option (Str × Option Str × Str) :=
  match litCI (S "use") t with
  | Option.none => Option.none
  | some t1 =>
    if (t1.takeWhile isPySpace).isEmpty then Option.none
    else
      match litCI (S "tool:") (t1.dropWhile isPySpace) with
      | Option.none => Option.none
      | some t2 =>
        match word1 (t2.dropWhile isPySpace) with
        | Option.none => Option.none
        | some (w, t3) =>
          let tryArgs : Option (Str × Str) :=
            if (t3.takeWhile isPySpace).isEmpty then Option.none
            else
              match litCI (S "with") (t3.dropWhile isPySpace) with
              | Option.none => Option.none
              | some t4 =>
                if (t4.takeWhile isPySpace).isEmpty then Option.none
                else
                  match litCI (S "args") (t4.dropWhile isPySpace) with
                  | Option.none => Option.none
                  | some t5 =>
                    match t5.dropWhile isPySpace with
                    | b :: t6 =>
                      if b = lbrace then
                        match scanLazy rbrace (fun _ => true) t6 with
                        | some (content, t7) => some (lbrace :: content ++ [rbrace], t7)
                        | Option.none => Option.none
                      else Option.none
                    | [] => Option.none
          match tryArgs with
          | some (g2, rest) => some (w, some g2, rest)
          | Option.none => some (w, Option.none, t3)

/-- One regex match: start index, matched span (`match.group(0)`), and the
two capture groups of the tool-call patterns. -/
structure ReMatch where
  start : Nat
  raw : Str
  g1 : Str
  g2 : Option Str
deriving DecidableEq

/-- Model of `re.finditer`: leftmost matches, scanning left to right,
non-overlapping (resume at each match's end; an empty match advances one
position, which the three patterns never produce). -/
def finditer (matchAt : Str → Option (Str × Option Str × Str)) (s : Str) :
    List ReMatch := go (s.length + 1) 0 s
where
  go : Nat → Nat → Str → List ReMatch
    | 0, _, _ => []
    | f + 1, i, t =>
      match matchAt t with
      | some (g1, g2, rest) =>
        let consumed := t.length - rest.length
        let m : ReMatch := ⟨i, t.take consumed, g1, g2⟩
        if consumed = 0 then
          match t with
          | [] => [m]
          | _ :: tr => m :: go f (i + 1) tr
        else m :: go f (i + consumed) (t.drop consumed)
      | Option.none =>
        match t with
        | [] => []
        | _ :: tr => go f (i + 1) tr

/-- Anchored attempt of the argument regex `(\w+)=(["\']?)(.*?)\2(?:,|$)`
(tool_executor.py line 120): name, `=`, then either a quoted value (the
quote closed at the first quote character followed by a comma or the end)
or, when that fails, the bare value up to the first comma or the end; the
trailing comma is consumed when present. -/
def argTripleAt (t : Str) : Option ((Str × Str) × Str) :=
  match word1 t with
  | Option.none => Option.none
  | some (w, t1) =>
    match t1 with
    | '=' :: t2 =>
      let unquoted : (Str × Str) × Str :=
        let v := t2.takeWhile (fun c => c ≠ ',')
        match t2.dropWhile (fun c => c ≠ ',') with
        | ',' :: r => ((w, v), r)
        | _ => ((w, v), [])
      match t2 with
      | q :: t3 =>
        if q = '"' ∨ q = squote then
          match scanLazy q (fun r => r.head? = some ',' ∨ r.isEmpty) t3 with
          | some (content, t4) =>
            match t4 with
            | ',' :: t5 => some ((w, content), t5)
            | _ => some ((w, content), t4)
          | Option.none => some unquoted
        else some unquoted
      | [] => some unquoted
    | _ => Option.none

/-- Model of `re.findall` for the argument regex: successive non-overlapping
matches, advancing one position where no match starts. -/
def findallArgs (s : Str) : List (Str × Str) := go (s.length + 1) s
where
  go : Nat → Str → List (Str × Str)
    | 0, _ => []
    | f + 1, t =>
      match argTripleAt t with
      | some (nv, rest) => nv :: go f rest
      | Option.none =>
        match t with
        | [] => []
        | _ :: tr => go f tr

/-- Argument coercion of `parse_tool_calls` (tool_executor.py lines 121-128):
`true`/`false` (case-insensitively) become booleans, digit-only tokens become
integers, everything else stays a string. -/
def coerceArg (v : Str) : PyValue :=
  if pyLower v = S "true" ∨ pyLower v = S "false" then .bool (pyLower v = S "true")
  else if pyIsDigit v then .int (digitsToNat v)
  else .str v

/-- Argument-string parsing of `parse_tool_calls` (lines 113-131): a block
starting with a brace goes to `json.loads` as a whole (a parse failure is
caught and yields `{"input": args_str}`); otherwise the argument regex is
applied field by field with `coerceArg` (no failure is possible there). -/
def parseArgsStr (a : Str) : PyValue :=
  if a.head? = some lbrace then
    match jsonLoads a with
    | some v => v
    | Option.none => .dict [(S "input", .str a)]
  else
    .dict ((findallArgs a).foldl (fun acc nv => dictSet acc nv.1 (coerceArg nv.2)) [])

/-- The key set of `ToolExecutor.tools` after `_register_tools`
(tool_executor.py lines 25-40): the union, in registration order, of the
dictionaries returned by `get_file_tools`, `get_shell_tools`,
`get_cursor_tools`, `get_database_tools` and `get_git_tools` (all key sets
are disjoint, so `dict.update` merging is plain concatenation). -/
def registryKeys : List Str :=
  [ S "read_file", S "write_file", S "list_directory", S "search_files",
    S "create_directory", S "move_file", S "copy_file", S "delete_file",
    S "execute_command", S "execute_python_script", S "get_system_info",
    S "check_process",
    S "open_file", S "open_directory", S "create_and_open_file",
    S "is_cursor_running", S "get_cursor_info",
    S "connect_sqlite", S "execute_query", S "get_tables",
    S "get_table_schema", S "create_sample_table", S "close_connection",
    S "list_connections",
    S "git_status", S "git_add", S "git_commit", S "git_push",
    S "git_branch", S "git_log" ]

/-- One extracted tool call ({tool, args, raw_match}, lines 134-138). -/
structure ToolCall where
  tool : Str
  args : PyValue
  raw_match : Str
deriving DecidableEq

/-- Per-match step of `parse_tool_calls` (lines 107-138): `args_str` is
`match.group(2)` (all three patterns have two groups); a missing or empty
argument string leaves `args = {}`; a directive naming an unregistered tool
is dropped. -/
def toolCallOfMatch (m : ReMatch) : Option ToolCall :=
  let args : PyValue :=
    match m.g2 with
    | Option.none => .dict []
    | some a => if a.isEmpty then .dict [] else parseArgsStr a
  if m.g1 ∈ registryKeys then some ⟨m.g1, args, m.raw⟩ else Option.none

/-- `ToolExecutor.parse_tool_calls` (tool_executor.py lines 88-140): the
three pattern families are applied one after the other, each over the whole
text, and the per-family match lists are concatenated. -/
def parse_tool_calls (s : Str) : List ToolCall :=
  (finditer p1MatchAt s).filterMap toolCallOfMatch
    ++ (finditer p2MatchAt s).filterMap toolCallOfMatch
    ++ (finditer p3MatchAt s).filterMap toolCallOfMatch

/-- Behaviour of one registered tool callable on given arguments: the value
it returns, or the exception message and traceback text it raises with
(`tool_function(**args)`, including argument-binding `TypeError`s, is the
oracle's to model). -/
inductive ExecOutcome where
  | returns (v : PyValue)
  | raises (msg : Str) (tb : Str)

/-- `ToolExecutor.execute_tool` (tool_executor.py lines 142-166): unknown
tools yield an error payload; a raising tool yields the structured
`{tool, args, error, traceback}` record; a returning tool yields
`{tool, args, result, success}` with `success` probed from dict results. -/
def execute_tool (impl : Str → PyValue → ExecOutcome) (toolName : Str)
    (args : PyValue) : PyValue :=
  if toolName ∈ registryKeys then
    match impl toolName args with
    | .returns r =>
      .dict [ (S "tool", .str toolName), (S "args", args), (S "result", r),
              (S "success",
                match r with
                | .dict kvs => dictGet kvs (S "success") (.bool true)
                | _ => .bool true) ]
    | .raises m tb =>
      .dict [ (S "tool", .str toolName), (S "args", args),
              (S "error", .str (S "Tool execution failed: " ++ m)),
              (S "traceback", .str tb) ]
  else .dict [(S "error", .str (S "Tool \x27" ++ toolName ++ S "\x27 not found"))]

/-- `ToolExecutor.process_ai_response` (tool_executor.py lines 168-202): with
no extracted calls, a `{success, message, tool_calls, has_tool_calls}`
payload (no `tool_count` key); otherwise every call is executed in order and
aggregated with `tool_count`.  The enclosing `try` never fires: every step
either catches its own failures or is total. -/
def process_ai_response (impl : Str → PyValue → ExecOutcome) (aiResponse : Str) :
    PyValue :=
  let toolCalls := parse_tool_calls aiResponse
  if toolCalls.isEmpty then
    .dict [ (S "success", .bool true), (S "message", .str aiResponse),
            (S "tool_calls", .list []), (S "has_tool_calls", .bool false) ]
  else
    let executed := toolCalls.map (fun c => execute_tool impl c.tool c.args)
    .dict [ (S "success", .bool true), (S "message", .str aiResponse),
            (S "tool_calls", .list executed), (S "has_tool_calls", .bool true),
            (S "tool_count", .int executed.length) ]

/-- Key list of a dict payload (empty for non-dicts). -/
def pyKeys : PyValue → List Str
  | .dict kvs => kvs.map (fun kv => kv.1)
  | _ => []

/-! ## Descriptor-merge analysis (claim C1) -/

/-- Left-biased choice on optional values. -/
def oOr : Option PyValue → Option PyValue → Option PyValue
  | some v, _ => some v
  | Option.none, b => b

/-- The value of the last binding of `k` in a key/value list, if any. -/
def lastDef (kvs : List (Str × PyValue)) (k : Str) : Option PyValue :=
  kvs.foldl (fun acc kv => if kv.1 = k then some kv.2 else acc) Option.none

/-- The descriptor for `k` coming from the latest source that defines it. -/
def latestDefinition (srcs : List (List (Str × PyValue))) (k : Str) : Option PyValue :=
  srcs.foldl (fun acc kvs => oOr (lastDef kvs k) acc) Option.none

lemma oOr_none_right (a : Option PyValue) : oOr a Option.none = a := by
  cases a <;> rfl

lemma oOr_assoc (a b c : Option PyValue) : oOr (oOr a b) c = oOr a (oOr b c) := by
  cases a <;> rfl

lemma foldl_lastDef_init (k : Str) (kvs : List (Str × PyValue)) (init : Option PyValue) :
    kvs.foldl (fun acc kv => if kv.1 = k then some kv.2 else acc) init
      = oOr (lastDef kvs k) init := by
  induction kvs generalizing init with
  | nil => cases init <;> rfl
  | cons kv rest ih =>
    rw [List.foldl_cons, ih]
    have hl : lastDef (kv :: rest) k
        = oOr (lastDef rest k) (if kv.1 = k then some kv.2 else Option.none) := by
      unfold lastDef
      rw [List.foldl_cons]
      exact ih _
    rw [hl, oOr_assoc]
    congr 1
    by_cases h : kv.1 = k <;> simp [h, oOr]

lemma dictLookup_dictSet (d : List (Str × PyValue)) (k : Str) (v : PyValue) (q : Str) :
    dictLookup q (dictSet d k v) = if k = q then some v else dictLookup q d := by
  induction d with
  | nil => simp [dictSet, dictLookup]
  | cons kv rest ih =>
    by_cases h1 : kv.1 = k
    · simp only [dictSet, h1, if_pos]
      by_cases h2 : k = q
      · simp [dictLookup, h2]
      · have : kv.1 ≠ q := by rw [h1]; exact h2
        simp [dictLookup, h2, this]
    · simp only [dictSet, h1, if_neg, not_false_iff]
      by_cases h2 : kv.1 = q
      · have : ¬ k = q := by intro hq; exact h1 (h2.trans hq.symm)
        simp [dictLookup, h2, this]
      · simp [dictLookup, h2, ih]

lemma dictLookup_dictUpdate (k : Str) (kvs d : List (Str × PyValue)) :
    dictLookup k (dictUpdate d kvs) = oOr (lastDef kvs k) (dictLookup k d) := by
  induction kvs generalizing d with
  | nil =>
    show dictLookup k d = oOr (lastDef [] k) (dictLookup k d)
    cases dictLookup k d <;> rfl
  | cons kv rest ih =>
    have h0 : dictUpdate d (kv :: rest) = dictUpdate (dictSet d kv.1 kv.2) rest := rfl
    rw [h0, ih, dictLookup_dictSet]
    have hl : lastDef (kv :: rest) k
        = oOr (lastDef rest k) (if kv.1 = k then some kv.2 else Option.none) := by
      unfold lastDef
      rw [List.foldl_cons]
      exact foldl_lastDef_init k rest _
    rw [hl, oOr_assoc]
    congr 1
    by_cases h : kv.1 = k <;> simp [h, oOr]

lemma foldl_latest_init (k : Str) (srcs : List (List (Str × PyValue)))
    (init : Option PyValue) :
    srcs.foldl (fun acc kvs => oOr (lastDef kvs k) acc) init
      = oOr (latestDefinition srcs k) init := by
  induction srcs generalizing init with
  | nil => cases init <;> rfl
  | cons kvs rest ih =>
    rw [List.foldl_cons, ih]
    have hl : latestDefinition (kvs :: rest) k
        = oOr (latestDefinition rest k) (oOr (lastDef kvs k) Option.none) := by
      unfold latestDefinition
      rw [List.foldl_cons]
      exact ih _
    rw [hl, oOr_assoc]
    congr 1
    rw [oOr_none_right]

lemma dictLookup_foldl_dictUpdate (k : Str) (srcs : List (List (Str × PyValue)))
    (d : List (Str × PyValue)) :
    dictLookup k (srcs.foldl (fun acc kvs => dictUpdate acc kvs) d)
      = oOr (latestDefinition srcs k) (dictLookup k d) := by
  induction srcs generalizing d with
  | nil =>
    show dictLookup k d = oOr (latestDefinition [] k) (dictLookup k d)
    cases dictLookup k d <;> rfl
  | cons kvs rest ih =>
    have h0 : (kvs :: rest).foldl (fun acc kvs => dictUpdate acc kvs) d
        = rest.foldl (fun acc kvs => dictUpdate acc kvs) (dictUpdate d kvs) := rfl
    rw [h0, ih, dictLookup_dictUpdate]
    have hl : latestDefinition (kvs :: rest) k
        = oOr (latestDefinition rest k) (oOr (lastDef kvs k) Option.none) := by
      unfold latestDefinition
      rw [List.foldl_cons]
      exact foldl_latest_init k rest _
    rw [hl, oOr_assoc, oOr_none_right]

/-- C1 counterexample: two discovery sources both define server `a`; after
construction the table holds the descriptor of the **second** (later) source,
not the first, because `servers.update(...)` overwrites on key collision —
the claimed first-writer-wins merge is false on the code. -/
theorem c1_counterexample :
    dictLookup (S "a") (discover_mcp_servers
        [ .config (.dict [(S "mcpServers", .dict [(S "a", .str (S "one"))])]),
          .config (.dict [(S "mcpServers", .dict [(S "a", .str (S "two"))])]) ])
      = some (.str (S "two"))
    ∧ dictLookup (S "a") (discover_mcp_servers
        [ .config (.dict [(S "mcpServers", .dict [(S "a", .str (S "one"))])]),
          .config (.dict [(S "mcpServers", .dict [(S "a", .str (S "two"))])]) ])
      ≠ some (.str (S "one")) :=
  ⟨rfl, by decide⟩

/-- C1 amended: descriptor sources are merged in order with
**last**-writer-wins: for every server name, the descriptor associated with
it after discovery is the one from the latest source that defines it (later
sources override earlier ones on key collision). -/
theorem c1_amended_last_writer_wins :
    ∀ (srcs : List (List (Str × PyValue))) (k : Str),
      dictLookup k (discover_mcp_servers (srcs.map
          (fun kvs => ConfigRead.config (.dict [(S "mcpServers", .dict kvs)]))))
        = latestDefinition srcs k := by
  intro srcs k
  have h1 : discover_mcp_servers (srcs.map
      (fun kvs => ConfigRead.config (.dict [(S "mcpServers", .dict kvs)])))
      = srcs.foldl (fun acc kvs => dictUpdate acc kvs) [] := by
    unfold discover_mcp_servers
    rw [List.foldl_map]
    rfl
  rw [h1, dictLookup_foldl_dictUpdate]
  simp [dictLookup, oOr_none_right]

/-! ## Gateway unknown-server short-circuit (claim C5) -/

/-- C5: a gateway call naming a server absent from the merged table returns
the unknown-server error payload immediately, with an empty interaction
trace: no process spawn, no request write, no wait, no output scan. -/
theorem c5_unknown_server :
    ∀ (servers osEnv : List (Str × PyValue)) (proc : ProcBehavior)
      (serverName toolName : Str) (args : PyValue),
      dictLookup serverName servers = Option.none →
      execute_mcp_tool servers osEnv proc serverName toolName args =
        (.ok (errDict (S "MCP server \x27" ++ serverName ++ S "\x27 not found")), []) := by
  intro servers osEnv proc serverName toolName args h
  unfold execute_mcp_tool
  rw [h]

/-- C5 witness: a concrete call against an empty table. -/
theorem c5_witness :
    execute_mcp_tool [] [] (.exits 0 [] []) (S "ghost") (S "t") .none =
      (.ok (errDict (S "MCP server \x27ghost\x27 not found")), []) :=
  c5_unknown_server [] [] _ _ _ _ rfl

/-! ## Wake-word gating (claim C3) -/

/-- C3: in wake-word mode, an utterance not containing the configured wake
word is discarded: the processor state (history included) is unchanged and
no event — no dispatch, no speech, no callback — is emitted. -/
theorem c3_wake_word_filter :
    ∀ (search : Str → Str → Option PyMatch) (now : ℚ)
      (handler : Option (VoiceCommand → HandlerOut)) (hasWakeCb : Bool)
      (tts : TTSOracle) (st : VoiceState) (rawText : Str),
      st.wake_word_mode = true →
      pyInStr st.wake_word (pyLower (pyStrip rawText)) = false →
      process_speech search now handler hasWakeCb tts st rawText = (st, []) := by
  intro search now handler hasWakeCb tts st rawText h1 h2
  unfold process_speech
  by_cases he : (pyStrip rawText).isEmpty <;> simp [he, h1, h2]

/-- C3 witness: a concrete wake-word-mode state discarding an utterance that
lacks the wake word. -/
theorem c3_witness :
    process_speech (fun _ _ => Option.none) 0 Option.none false
        ⟨[], fun _ => false, 0⟩ ⟨S "agenticsseek", true, true, [], 50⟩
        (S "open main.py") =
      (⟨S "agenticsseek", true, true, [], 50⟩, []) :=
  c3_wake_word_filter _ _ _ _ _ _ _ rfl (by decide)

/-! ## Bounded FIFO history (claim C4) -/

lemma pushHistory_length_le (h : List VoiceCommand) (c : VoiceCommand)
    (hle : h.length ≤ 50) : (pushHistory 50 h c).length ≤ 50 := by
  show (if 50 < (h ++ [c]).length then (h ++ [c]).tail else h ++ [c]).length ≤ 50
  by_cases hc : 50 < (h ++ [c]).length
  · rw [if_pos hc]
    simp only [List.length_tail, List.length_append, List.length_singleton]
    omega
  · rw [if_neg hc]
    simp only [List.length_append, List.length_singleton] at hc ⊢
    omega

lemma foldl_pushHistory_drop :
    ∀ (cs h : List VoiceCommand), h.length ≤ 50 →
      List.foldl (pushHistory 50) h cs = (h ++ cs).drop (h.length + cs.length - 50) := by
  intro cs
  induction cs with
  | nil =>
    intro h hle
    rw [List.foldl_nil, List.append_nil]
    have hz : h.length + List.length ([] : List VoiceCommand) - 50 = 0 := by
      simp only [List.length_nil, Nat.add_zero]
      omega
    rw [hz, List.drop_zero]
  | cons c cs ih =>
    intro h hle
    rw [List.foldl_cons]
    by_cases hlen : h.length + 1 ≤ 50
    · have hp : pushHistory 50 h c = h ++ [c] := by
        show (if 50 < (h ++ [c]).length then (h ++ [c]).tail else h ++ [c]) = h ++ [c]
        rw [if_neg (by simp only [List.length_append, List.length_cons, List.length_nil]; omega)]
      rw [hp, ih (h ++ [c])
        (by simp only [List.length_append, List.length_cons, List.length_nil]; omega)]
      have hl1 : (h ++ [c]) ++ cs = h ++ c :: cs := by simp
      have hl2 : (h ++ [c]).length + cs.length - 50 = h.length + (c :: cs).length - 50 := by
        simp only [List.length_append, List.length_cons, List.length_nil]
        omega
      rw [hl1, hl2]
    · have h50 : h.length = 50 := by omega
      have hne : h ≠ [] := by
        intro he
        rw [he] at h50
        simp at h50
      have hp : pushHistory 50 h c = h.tail ++ [c] := by
        show (if 50 < (h ++ [c]).length then (h ++ [c]).tail else h ++ [c]) = h.tail ++ [c]
        rw [if_pos (by simp only [List.length_append, List.length_cons, List.length_nil]; omega)]
        cases h with
        | nil => exact (hne rfl).elim
        | cons a as => rfl
      have htl : h.tail.length = 49 := by rw [List.length_tail]; omega
      rw [hp, ih (h.tail ++ [c])
        (by simp only [List.length_append, List.length_cons, List.length_nil, htl]; omega)]
      have e1 : (h.tail ++ [c]) ++ cs = (h ++ c :: cs).tail := by
        cases h with
        | nil => exact (hne rfl).elim
        | cons a as => simp
      have hidx : (h.tail ++ [c]).length + cs.length - 50 = cs.length := by
        simp only [List.length_append, List.length_cons, List.length_nil, htl]
        omega
      have hidx2 : h.length + (c :: cs).length - 50 = cs.length + 1 := by
        simp only [List.length_cons, h50]
        omega
      rw [e1, hidx, hidx2, ← List.drop_one, List.drop_drop, Nat.add_comm 1 cs.length]

lemma foldl_pushHistory_51 (c0 : VoiceCommand) (rest : List VoiceCommand)
    (h50 : rest.length = 50) :
    List.foldl (pushHistory 50) [] (c0 :: rest) = rest := by
  rw [foldl_pushHistory_drop (c0 :: rest) [] (by simp)]
  have hz : List.length ([] : List VoiceCommand) + (c0 :: rest).length - 50 = 1 := by
    simp [h50]
  rw [hz, List.nil_append, List.drop_succ_cons, List.drop_zero]

/-- C4: the command history never exceeds its capacity of 50 entries
(insertion preserves the bound), and insertion at capacity evicts the
oldest entry first: after appending capacity+1 commands into an empty
history, the result is exactly the last 50 of them, so the first-inserted
command is absent (when not re-inserted later) and the last-inserted command
is present. -/
theorem c4_history_bound_fifo :
    (∀ (h : List VoiceCommand) (c : VoiceCommand), h.length ≤ 50 →
       (pushHistory 50 h c).length ≤ 50)
    ∧ (∀ (c0 : VoiceCommand) (rest : List VoiceCommand), rest.length = 50 →
        List.foldl (pushHistory 50) [] (c0 :: rest) = rest)
    ∧ (∀ (c0 : VoiceCommand) (rest : List VoiceCommand), rest.length = 50 → c0 ∉ rest →
        c0 ∉ List.foldl (pushHistory 50) [] (c0 :: rest))
    ∧ (∀ (c0 : VoiceCommand) (rest : List VoiceCommand) (hne : rest ≠ []),
        rest.length = 50 →
        rest.getLast hne ∈ List.foldl (pushHistory 50) [] (c0 :: rest)) := by
  refine ⟨pushHistory_length_le, foldl_pushHistory_51, ?_, ?_⟩
  · intro c0 rest h50 hnotin
    rw [foldl_pushHistory_51 c0 rest h50]
    exact hnotin
  · intro c0 rest hne h50
    rw [foldl_pushHistory_51 c0 rest h50]
    exact List.getLast_mem hne

/-- Concrete command used by the C4 witness. -/
def histCmdA : VoiceCommand := ⟨S "a", .unknown, S "q", [], 0, 0⟩

/-- Concrete command used by the C4 witness. -/
def histCmdB : VoiceCommand := ⟨S "b", .unknown, S "q", [], 0, 0⟩

/-- C4 witness: a full history of 50 copies of one command, plus 51
insertions starting from an empty history. -/
theorem c4_witness :
    (pushHistory 50 (List.replicate 50 histCmdB) histCmdA).length ≤ 50
    ∧ List.foldl (pushHistory 50) [] (histCmdA :: List.replicate 50 histCmdB)
        = List.replicate 50 histCmdB
    ∧ histCmdA ∉ List.foldl (pushHistory 50) [] (histCmdA :: List.replicate 50 histCmdB)
    ∧ (List.replicate 50 histCmdB).getLast (by simp)
        ∈ List.foldl (pushHistory 50) [] (histCmdA :: List.replicate 50 histCmdB) :=
  ⟨c4_history_bound_fifo.1 _ _ (by simp),
   c4_history_bound_fifo.2.1 _ _ (by simp),
   c4_history_bound_fifo.2.2.1 _ _ (by simp) (by decide),
   c4_history_bound_fifo.2.2.2 _ _ _ (by simp)⟩

/-! ## Parse fallback and confidence (claim C2) -/

lemma tryPatternList_eq_none (search : Str → Str → Option PyMatch) (now : ℚ)
    (text : Str) (ct : CommandType) :
    ∀ ps : List PatternInfo, (∀ p ∈ ps, search p.pattern text = Option.none) →
      tryPatternList search now text ct ps = Option.none := by
  intro ps
  induction ps with
  | nil => intro _; rfl
  | cons q rest ih =>
    intro hall
    have hq : search q.pattern text = Option.none := hall q (List.mem_cons_self q rest)
    show (match search q.pattern text with
          | some m =>
            some { original_text := text, command_type := ct, action := q.action,
                   parameters := extractParams q.params m, confidence := 8/10,
                   timestamp := now }
          | Option.none => tryPatternList search now text ct rest) = Option.none
    rw [hq]
    exact ih (fun p hp => hall p (List.mem_cons_of_mem q hp))

lemma tryPatternList_none_imp (search : Str → Str → Option PyMatch) (now : ℚ)
    (text : Str) (ct : CommandType) :
    ∀ ps : List PatternInfo, tryPatternList search now text ct ps = Option.none →
      ∀ p ∈ ps, search p.pattern text = Option.none := by
  intro ps
  induction ps with
  | nil => intro _ p hp; exact absurd hp (List.not_mem_nil p)
  | cons q rest ih =>
    intro hnone p hp
    have he : tryPatternList search now text ct (q :: rest)
        = (match search q.pattern text with
           | some m =>
             some { original_text := text, command_type := ct, action := q.action,
                    parameters := extractParams q.params m, confidence := 8/10,
                    timestamp := now }
           | Option.none => tryPatternList search now text ct rest) := rfl
    rw [he] at hnone
    cases hsq : search q.pattern text with
    | some m => rw [hsq] at hnone; exact Option.noConfusion hnone
    | none =>
      rw [hsq] at hnone
      rcases List.mem_cons.mp hp with h | h
      · rw [h]; exact hsq
      · exact ih hnone p h

lemma tryPatternList_confidence (search : Str → Str → Option PyMatch) (now : ℚ)
    (text : Str) (ct : CommandType) :
    ∀ (ps : List PatternInfo) (c : VoiceCommand),
      tryPatternList search now text ct ps = some c → c.confidence = 8/10 := by
  intro ps
  induction ps with
  | nil => intro c h; exact Option.noConfusion h
  | cons q rest ih =>
    intro c h
    have he : tryPatternList search now text ct (q :: rest)
        = (match search q.pattern text with
           | some m =>
             some { original_text := text, command_type := ct, action := q.action,
                    parameters := extractParams q.params m, confidence := 8/10,
                    timestamp := now }
           | Option.none => tryPatternList search now text ct rest) := rfl
    rw [he] at h
    cases hsq : search q.pattern text with
    | some m =>
      rw [hsq] at h
      cases h
      rfl
    | none =>
      rw [hsq] at h
      exact ih c h

lemma tryTable_eq_none (search : Str → Str → Option PyMatch) (now : ℚ) (text : Str) :
    ∀ table : List (CommandType × List PatternInfo),
      (∀ e ∈ table, ∀ p ∈ e.2, search p.pattern text = Option.none) →
      tryTable search now text table = Option.none := by
  intro table
  induction table with
  | nil => intro _; rfl
  | cons e rest ih =>
    intro hall
    obtain ⟨ct, ps⟩ := e
    show (match tryPatternList search now text ct ps with
          | some c => some c
          | Option.none => tryTable search now text rest) = Option.none
    rw [tryPatternList_eq_none search now text ct ps
      (fun p hp => hall (ct, ps) (List.mem_cons_self _ rest) p hp)]
    exact ih (fun e he p hp => hall e (List.mem_cons_of_mem _ he) p hp)

lemma tryTable_none_imp (search : Str → Str → Option PyMatch) (now : ℚ) (text : Str) :
    ∀ table : List (CommandType × List PatternInfo),
      tryTable search now text table = Option.none →
      ∀ e ∈ table, ∀ p ∈ e.2, search p.pattern text = Option.none := by
  intro table
  induction table with
  | nil => intro _ e he; exact absurd he (List.not_mem_nil e)
  | cons e0 rest ih =>
    intro hnone e he p hp
    obtain ⟨ct, ps⟩ := e0
    have he0 : tryTable search now text ((ct, ps) :: rest)
        = (match tryPatternList search now text ct ps with
           | some c => some c
           | Option.none => tryTable search now text rest) := rfl
    rw [he0] at hnone
    cases hpl : tryPatternList search now text ct ps with
    | some c => rw [hpl] at hnone; exact Option.noConfusion hnone
    | none =>
      rw [hpl] at hnone
      rcases List.mem_cons.mp he with h | h
      · rw [h] at hp
        exact tryPatternList_none_imp search now text ct ps hpl p hp
      · exact ih hnone e h p hp

lemma tryTable_confidence (search : Str → Str → Option PyMatch) (now : ℚ) (text : Str) :
    ∀ (table : List (CommandType × List PatternInfo)) (c : VoiceCommand),
      tryTable search now text table = some c → c.confidence = 8/10 := by
  intro table
  induction table with
  | nil => intro c h; exact Option.noConfusion h
  | cons e0 rest ih =>
    intro c h
    obtain ⟨ct, ps⟩ := e0
    have he0 : tryTable search now text ((ct, ps) :: rest)
        = (match tryPatternList search now text ct ps with
           | some c => some c
           | Option.none => tryTable search now text rest) := rfl
    rw [he0] at h
    cases hpl : tryPatternList search now text ct ps with
    | some c0 =>
      rw [hpl] at h
      injection h with h2
      rw [← h2]
      exact tryPatternList_confidence search now text ct ps c0 hpl
    | none =>
      rw [hpl] at h
      exact ih c h

lemma parse_command_eq (search : Str → Str → Option PyMatch) (now : ℚ) (text : Str) :
    parse_command search now text
      = (match tryTable search now (pyStrip (pyLower text)) command_patterns with
         | some c => c
         | Option.none =>
           { original_text := pyStrip (pyLower text), command_type := .unknown,
             action := S "general_query",
             parameters := [(S "query", pyStrip (pyLower text))],
             confidence := 3/10, timestamp := now }) := rfl

/-- C2 counterexample: `parse_command` stores the lowercased text as the
fallback `query` parameter, so on input `"XYZ"` (on which no pattern matches)
the parameters are `{"query": "xyz"}` — not `{"query": text}` with `text`
the given input, as claimed. -/
theorem c2_counterexample :
    (parse_command (fun _ _ => Option.none) 0 (S "XYZ")).parameters
        = [(S "query", S "xyz")]
    ∧ (parse_command (fun _ _ => Option.none) 0 (S "XYZ")).parameters
        ≠ [(S "query", S "XYZ")] :=
  ⟨rfl, by decide⟩

/-- C2 amended: with `t` the lowercased and stripped input (also stored as
`original_text`), an input on which no pattern of the table matches parses to
type `Unknown`, action `general_query`, parameters `{"query": t}` and
confidence 0.3; an input on which some pattern matches parses with confidence
0.8, strictly greater than the unmatched baseline 0.3. -/
theorem c2_amended_parse_fallback :
    ∀ (search : Str → Str → Option PyMatch) (now : ℚ) (text : Str),
      ((∀ e ∈ command_patterns, ∀ p ∈ e.2,
          search p.pattern (pyStrip (pyLower text)) = Option.none) →
        parse_command search now text =
          { original_text := pyStrip (pyLower text), command_type := .unknown,
            action := S "general_query",
            parameters := [(S "query", pyStrip (pyLower text))],
            confidence := 3/10, timestamp := now })
      ∧ ((∃ e ∈ command_patterns, ∃ p ∈ e.2,
          search p.pattern (pyStrip (pyLower text)) ≠ Option.none) →
        (parse_command search now text).confidence = 8/10)
      ∧ (3 : ℚ)/10 < 8/10 := by
  intro search now text
  refine ⟨?_, ?_, by norm_num⟩
  · intro hall
    rw [parse_command_eq,
      tryTable_eq_none search now (pyStrip (pyLower text)) command_patterns hall]
  · intro hex
    cases hm : tryTable search now (pyStrip (pyLower text)) command_patterns with
    | some c =>
      rw [parse_command_eq, hm]
      exact tryTable_confidence search now (pyStrip (pyLower text)) command_patterns c hm
    | none =>
      obtain ⟨e, he, p, hp, hne⟩ := hex
      exact absurd (tryTable_none_imp search now (pyStrip (pyLower text))
        command_patterns hm e he p hp) hne

/-- C2 witness: the all-miss oracle on a gibberish input yields the fallback
command, and an oracle matching the first table pattern yields confidence
0.8. -/
theorem c2_witness :
    parse_command (fun _ _ => Option.none) 0 (S "completely unrelated gibberish xyz")
      = { original_text := S "completely unrelated gibberish xyz",
          command_type := .unknown, action := S "general_query",
          parameters := [(S "query", S "completely unrelated gibberish xyz")],
          confidence := 3/10, timestamp := 0 }
    ∧ (parse_command (fun _ _ => some ⟨[]⟩) 0 (S "anything")).confidence = 8/10 :=
  ⟨(c2_amended_parse_fallback (fun _ _ => Option.none) 0
      (S "completely unrelated gibberish xyz")).1 (fun _ _ _ _ => rfl),
   (c2_amended_parse_fallback (fun _ _ => some ⟨[]⟩) 0 (S "anything")).2.1
      ⟨(.mcp_control,
          [ ⟨S "open (?:file )?(.+?) in (?:cursor|editor)", S "cursor_open_file", [(S "file_path", 1)]⟩,
            ⟨S "remember (?:that )?(.+)", S "memory_save", [(S "content", 1)]⟩,
            ⟨S "watch (?:the )?(.+?) (?:directory|folder|files)", S "file_watch", [(S "path", 1)]⟩,
            ⟨S "create (?:a )?file (?:called )?(.+)", S "cursor_create_file", [(S "file_name", 1)]⟩,
            ⟨S "search (?:for )?(.+?) in (?:files|project)", S "cursor_search_files", [(S "query", 1)]⟩ ]),
        List.mem_cons_self _ _,
        ⟨S "open (?:file )?(.+?) in (?:cursor|editor)", S "cursor_open_file", [(S "file_path", 1)]⟩,
        List.mem_cons_self _ _,
        fun h => Option.noConfusion h⟩⟩

/-! ## Gateway response scan (claim C6) -/

/-- Spec-side scan, following the claim's words: the payload of the first
line that parses as a JSON object containing a `result` or an `error` field
(a blank line never parses as a JSON object and is skipped). -/
def specFirstPayload : List Str → Option PyValue
  | [] => Option.none
  | line :: rest =>
    if (pyStrip line).isEmpty then specFirstPayload rest
    else
      match jsonLoads line with
      | some (.dict kvs) =>
        match dictLookup (S "result") kvs with
        | some v => some v
        | Option.none =>
          match dictLookup (S "error") kvs with
          | some v => some (.dict [(S "error", v)])
          | Option.none => specFirstPayload rest
      | _ => specFirstPayload rest

lemma any_key_eq_lookup (k : Str) (kvs : List (Str × PyValue)) :
    (kvs.any fun kv => kv.1 = k) = (dictLookup k kvs).isSome := by
  induction kvs with
  | nil => rfl
  | cons kv rest ih => by_cases h : kv.1 = k <;> simp [dictLookup, h, ih]

lemma scanLines_spec :
    ∀ lines : List Str,
      (∀ line ∈ lines, jsonLoads line = Option.none
        ∨ ∃ kvs, jsonLoads line = some (.dict kvs)) →
      scanLines lines = .ok (specFirstPayload lines) := by
  intro lines
  induction lines with
  | nil => intro _; rfl
  | cons line rest ih =>
    intro hall
    have hrest := ih (fun l hl => hall l (List.mem_cons_of_mem _ hl))
    have hline := hall line (List.mem_cons_self _ _)
    cases hb : (pyStrip line).isEmpty with
    | true => simp only [scanLines, specFirstPayload, hb, if_true]; exact hrest
    | false =>
      simp only [scanLines, specFirstPayload, hb, Bool.false_eq_true, if_false]
      rcases hline with hnone | ⟨kvs, hsome⟩
      · simp only [hnone]
        exact hrest
      · cases hr : dictLookup (S "result") kvs with
        | some v =>
          have hmem : pyMem (S "result") (.dict kvs) = .ok true := by
            show Except.ok (kvs.any fun kv => kv.1 = S "result") = Except.ok true
            rw [any_key_eq_lookup, hr]
            rfl
          have hget : pyGetItem (.dict kvs) (S "result") = .ok v := by
            show (match dictLookup (S "result") kvs with
                  | some x => Except.ok x
                  | Option.none => Except.error (S "KeyError")) = Except.ok v
            rw [hr]
          simp only [hsome, hmem, hget, hr]
        | none =>
          have hmem : pyMem (S "result") (.dict kvs) = .ok false := by
            show Except.ok (kvs.any fun kv => kv.1 = S "result") = Except.ok false
            rw [any_key_eq_lookup, hr]
            rfl
          cases he : dictLookup (S "error") kvs with
          | some v =>
            have hmem2 : pyMem (S "error") (.dict kvs) = .ok true := by
              show Except.ok (kvs.any fun kv => kv.1 = S "error") = Except.ok true
              rw [any_key_eq_lookup, he]
              rfl
            have hget2 : pyGetItem (.dict kvs) (S "error") = .ok v := by
              show (match dictLookup (S "error") kvs with
                    | some x => Except.ok x
                    | Option.none => Except.error (S "KeyError")) = Except.ok v
              rw [he]
            simp only [hsome, hmem, hr, hmem2, hget2, he]
          | none =>
            have hmem2 : pyMem (S "error") (.dict kvs) = .ok false := by
              show Except.ok (kvs.any fun kv => kv.1 = S "error") = Except.ok false
              rw [any_key_eq_lookup, he]
              rfl
            simp only [hsome, hmem, hr, hmem2, he]
            exact hrest

/-- C6 counterexample: with exit status zero and standard output `42` — a
line that parses as JSON but **not** as a JSON object — the call fails with
the generic `Failed to execute MCP tool: ...` error (the `'result' in
response` probe raises `TypeError` on the integer, caught by the blanket
handler), not with the claimed malformed-response error. -/
theorem c6_counterexample :
    pySplitChar '\n' (pyStrip (S "42")) = [S "42"]
    ∧ jsonLoads (S "42") = some (.int 42)
    ∧ (execute_mcp_tool [(S "srv", .dict [(S "command", .str (S "node"))])] []
        (.exits 0 (S "42") []) (S "srv") (S "t") .none).1
      = .ok (errDict (S "Failed to execute MCP tool: argument of type \x27int\x27 is not iterable"))
    ∧ (execute_mcp_tool [(S "srv", .dict [(S "command", .str (S "node"))])] []
        (.exits 0 (S "42") []) (S "srv") (S "t") .none).1
      ≠ .ok (errDict (S "No valid response from MCP server")) :=
  ⟨rfl, rfl, rfl, by decide⟩

/-- C6 amended: when the process exits with status zero and every
standard-output line either fails to parse as JSON or parses to a JSON
object, the gateway returns the payload of the first line parsing as a JSON
object with a `result` or `error` field, and fails with the
malformed-response error when there is no such line.  (A line parsing to a
non-object JSON value instead aborts the scan with a generic
tool-execution error, per the counterexample.) -/
theorem c6_amended_response_scan :
    ∀ (servers osEnv : List (Str × PyValue)) (serverName toolName : Str)
      (args : PyValue) (cfg : List (Str × PyValue)) (cmd : PyValue)
      (cmdArgs : List PyValue) (envOverrides : List (Str × PyValue))
      (stdout stderr : Str),
      dictLookup serverName servers = some (.dict cfg) →
      dictLookup (S "command") cfg = some cmd →
      dictGet cfg (S "args") (.list []) = .list cmdArgs →
      dictGet cfg (S "env") (.dict []) = .dict envOverrides →
      (∀ line ∈ pySplitChar '\n' (pyStrip stdout),
        jsonLoads line = Option.none ∨ ∃ kvs, jsonLoads line = some (.dict kvs)) →
      (execute_mcp_tool servers osEnv (.exits 0 stdout stderr) serverName toolName args).1
        = .ok (match specFirstPayload (pySplitChar '\n' (pyStrip stdout)) with
               | some payload => payload
               | Option.none => errDict (S "No valid response from MCP server")) := by
  intro servers osEnv serverName toolName args cfg cmd cmdArgs envOverrides stdout stderr
    h1 h2 h3 h4 hlines
  simp only [execute_mcp_tool, h1, h2, h3, h4]
  rw [scanLines_spec _ hlines]
  cases hsp : specFirstPayload (pySplitChar '\n' (pyStrip stdout)) <;> simp [hsp]

/-- C6 witness: a concrete successful scan returning the `result` payload of
the single output line. -/
theorem c6_witness :
    (execute_mcp_tool [(S "srv", .dict [(S "command", .str (S "node"))])] []
        (.exits 0 (S "\x7b\"result\": 5\x7d") []) (S "srv") (S "t") .none).1
      = .ok (.int 5) :=
  (c6_amended_response_scan [(S "srv", .dict [(S "command", .str (S "node"))])] []
      (S "srv") (S "t") .none [(S "command", .str (S "node"))] (.str (S "node")) [] []
      (S "\x7b\"result\": 5\x7d") [] rfl rfl rfl rfl
      (fun line hl => by
        have he : line = S "\x7b\"result\": 5\x7d" := List.mem_singleton.mp hl
        subst he
        exact Or.inr ⟨[(S "result", .int 5)], rfl⟩)).trans (by rfl)

/-! ## Batch dispatch aggregate (claim C7) -/

/-- C7 counterexample: on model text with no extracted tool calls the
aggregate has keys `success, message, tool_calls, has_tool_calls` only — the
claimed `tool_count` field is absent. -/
theorem c7_counterexample :
    pyKeys (process_ai_response (fun _ _ => ExecOutcome.returns .none) (S "hello"))
      = [S "success", S "message", S "tool_calls", S "has_tool_calls"]
    ∧ S "tool_count"
      ∉ pyKeys (process_ai_response (fun _ _ => ExecOutcome.returns .none) (S "hello")) :=
  ⟨rfl, by decide⟩

/-- C7 amended: the aggregate always carries `tool_calls` and
`has_tool_calls`, and carries `tool_count` exactly when at least one call was
extracted; the `tool_calls` entry holds one result per extracted call in
order (one call's outcome never prevents the remaining calls from executing),
and a call whose tool function raises is converted into the structured
`{tool, args, error, traceback}` record instead of propagating. -/
theorem c7_amended_dispatch :
    ∀ (impl : Str → PyValue → ExecOutcome) (text : Str),
      (S "tool_calls" ∈ pyKeys (process_ai_response impl text)
        ∧ S "has_tool_calls" ∈ pyKeys (process_ai_response impl text))
      ∧ (parse_tool_calls text ≠ [] →
          S "tool_count" ∈ pyKeys (process_ai_response impl text))
      ∧ pyGetItem (process_ai_response impl text) (S "tool_calls")
          = .ok (.list ((parse_tool_calls text).map
              (fun c => execute_tool impl c.tool c.args)))
      ∧ (∀ (name : Str) (args : PyValue) (m tb : Str), name ∈ registryKeys →
          impl name args = .raises m tb →
          execute_tool impl name args =
            .dict [ (S "tool", .str name), (S "args", args),
                    (S "error", .str (S "Tool execution failed: " ++ m)),
                    (S "traceback", .str tb) ]) := by
  intro impl text
  refine ⟨?_, ?_, ?_, fun name args m tb hreg himpl => ?_⟩
  · cases hp : parse_tool_calls text with
    | nil => simp only [process_ai_response, hp]; simp +decide [pyKeys]
    | cons c cs => simp only [process_ai_response, hp]; simp +decide [pyKeys]
  · intro hne
    cases hp : parse_tool_calls text with
    | nil => exact absurd hp hne
    | cons c cs => simp only [process_ai_response, hp]; simp +decide [pyKeys]
  · cases hp : parse_tool_calls text with
    | nil => simp only [process_ai_response, hp]; rfl
    | cons c cs => simp only [process_ai_response, hp]; rfl
  · simp only [execute_tool, if_pos hreg, himpl]

/-- C7 witness: a batch of two extracted calls under an implementation that
raises; the aggregate carries `tool_count` and the raising call's structured
record. -/
theorem c7_witness :
    S "tool_count" ∈ pyKeys (process_ai_response
        (fun _ _ => ExecOutcome.raises (S "boom") (S "tb"))
        (S "TOOL_CALL: git_status()"))
    ∧ execute_tool (fun _ _ => ExecOutcome.raises (S "boom") (S "tb"))
        (S "git_status") (.dict [])
      = .dict [ (S "tool", .str (S "git_status")), (S "args", .dict []),
                (S "error", .str (S "Tool execution failed: boom")),
                (S "traceback", .str (S "tb")) ] :=
  ⟨(c7_amended_dispatch _ _).2.1 (by decide),
   (c7_amended_dispatch (fun _ _ => ExecOutcome.raises (S "boom") (S "tb"))
      (S "TOOL_CALL: git_status()")).2.2.2 _ _ _ _ (by decide) rfl⟩

/-! ## Extraction order across notations (claim C8) -/

lemma finditer_go_props (matchAt : Str → Option (Str × Option Str × Str)) :
    ∀ (f i : Nat) (t : Str),
      List.Pairwise (fun a b : ReMatch => a.start < b.start) (finditer.go matchAt f i t)
      ∧ ∀ m ∈ finditer.go matchAt f i t, i ≤ m.start := by
  intro f
  induction f with
  | zero =>
    intro i t
    exact ⟨List.Pairwise.nil, fun m hm => absurd hm (List.not_mem_nil m)⟩
  | succ f ih =>
    intro i t
    cases hma : matchAt t with
    | none =>
      cases t with
      | nil =>
        simp only [finditer.go, hma]
        exact ⟨List.Pairwise.nil, fun m hm => absurd hm (List.not_mem_nil m)⟩
      | cons c tr =>
        simp only [finditer.go, hma]
        refine ⟨(ih (i + 1) tr).1, fun m hm => ?_⟩
        have := (ih (i + 1) tr).2 m hm
        omega
    | some trip =>
      obtain ⟨g1, g2, rest⟩ := trip
      by_cases hc : t.length - rest.length = 0
      · cases t with
        | nil =>
          simp only [finditer.go, hma]
          rw [if_pos hc]
          refine ⟨List.pairwise_singleton _ _, fun m hm => ?_⟩
          have he := List.mem_singleton.mp hm
          rw [he]
        | cons c tr =>
          simp only [finditer.go, hma]
          rw [if_pos hc]
          refine ⟨List.Pairwise.cons (fun b hb => ?_) (ih (i + 1) tr).1, fun m hm => ?_⟩
          · have := (ih (i + 1) tr).2 b hb
            show i < b.start
            omega
          · rcases List.mem_cons.mp hm with h | h
            · rw [h]
            · have := (ih (i + 1) tr).2 m h
              omega
      · simp only [finditer.go, hma]
        rw [if_neg hc]
        refine ⟨List.Pairwise.cons (fun b hb => ?_)
            (ih (i + (t.length - rest.length)) (t.drop (t.length - rest.length))).1,
          fun m hm => ?_⟩
        · have := (ih (i + (t.length - rest.length)) (t.drop (t.length - rest.length))).2 b hb
          show i < b.start
          omega
        · rcases List.mem_cons.mp hm with h | h
          · rw [h]
          · have := (ih (i + (t.length - rest.length)) (t.drop (t.length - rest.length))).2 m h
            omega

/-- C8 counterexample: in text holding a `use tool:` directive at position 0
and a `TOOL_CALL:` directive at position 21, the extractor returns the
`TOOL_CALL:` match first — output is grouped by notation family, not ordered
by source position as claimed. -/
theorem c8_counterexample :
    parse_tool_calls (S "use tool: git_status TOOL_CALL: read_file(file_path=\"x\")")
      = [ ⟨S "read_file", .dict [(S "file_path", .str (S "x"))],
            S "TOOL_CALL: read_file(file_path=\"x\")"⟩,
          ⟨S "git_status", .dict [], S "use tool: git_status"⟩ ]
    ∧ pyFind (S "TOOL_CALL: read_file(file_path=\"x\")")
        (S "use tool: git_status TOOL_CALL: read_file(file_path=\"x\")") = some 21
    ∧ pyFind (S "use tool: git_status")
        (S "use tool: git_status TOOL_CALL: read_file(file_path=\"x\")") = some 0 :=
  ⟨rfl, rfl, rfl⟩

/-- C8 amended: the extractor applies the three notations one after the
other and returns the concatenation, family by family in the fixed family
order (labeled function call, bracketed JSON, natural-language `use tool:`),
with each family's matches in strictly increasing source position and
without de-duplication; matches of different families are not interleaved by
position. -/
theorem c8_amended_family_order :
    ∀ s : Str,
      parse_tool_calls s
        = (finditer p1MatchAt s).filterMap toolCallOfMatch
          ++ (finditer p2MatchAt s).filterMap toolCallOfMatch
          ++ (finditer p3MatchAt s).filterMap toolCallOfMatch
      ∧ ∀ matchAt, List.Pairwise (fun a b : ReMatch => a.start < b.start)
          (finditer matchAt s) :=
  fun s => ⟨rfl, fun matchAt => (finditer_go_props matchAt (s.length + 1) 0 s).1⟩

/-! ## Argument coercion (claim C9) -/

lemma pyIsDigit_lower_ne (v : Str) (hd : pyIsDigit v = true) (t : Char) (ts : Str)
    (ht : isAsciiDigit t = false) : pyLower v ≠ t :: ts := by
  intro he
  cases v with
  | nil => simp [pyIsDigit] at hd
  | cons c cs =>
    have hc : isAsciiDigit c = true := by
      simp only [pyIsDigit, List.isEmpty_cons, Bool.not_false, Bool.true_and,
        List.all_cons, Bool.and_eq_true] at hd
      exact hd.1
    have hlc : pyLowerChar c = t := by
      have he2 : pyLowerChar c :: cs.map pyLowerChar = t :: ts := he
      injection he2
    have hcc : pyLowerChar c = c := by
      unfold pyLowerChar
      rw [if_neg]
      intro hAZ
      simp only [isAsciiDigit, decide_eq_true_eq] at hc
      exact absurd (le_trans hAZ.1 hc.2) (by decide)
    rw [hcc] at hlc
    rw [hlc] at hc
    rw [hc] at ht
    exact Bool.noConfusion ht

/-- C9: argument coercion in the function-call notation — tokens equal
(case-insensitively) to `true`/`false` become booleans, digit-only tokens
become integers, everything else stays a string; and an argument block
starting with a brace is handed to the JSON parser as a whole, while any
other block is parsed field by field through the coercion. -/
theorem c9_argument_coercion :
    (∀ v : Str, pyLower v = S "true" → coerceArg v = .bool true)
    ∧ (∀ v : Str, pyLower v = S "false" → coerceArg v = .bool false)
    ∧ (∀ v : Str, pyIsDigit v = true → coerceArg v = .int (digitsToNat v))
    ∧ (∀ v : Str, pyLower v ≠ S "true" → pyLower v ≠ S "false" →
        pyIsDigit v = false → coerceArg v = .str v)
    ∧ (∀ a : Str, a.head? = some lbrace →
        parseArgsStr a = (match jsonLoads a with
          | some j => j
          | Option.none => .dict [(S "input", .str a)]))
    ∧ (∀ a : Str, a.head? ≠ some lbrace →
        parseArgsStr a = .dict ((findallArgs a).foldl
          (fun acc nv => dictSet acc nv.1 (coerceArg nv.2)) [])) := by
  refine ⟨?_, ?_, ?_, ?_, ?_, ?_⟩
  · intro v h
    simp +decide [coerceArg, h]
  · intro v h
    simp +decide [coerceArg, h]
  · intro v hd
    unfold coerceArg
    rw [if_neg, if_pos hd]
    rintro (h | h)
    · exact pyIsDigit_lower_ne v hd 't' (S "rue") (by decide) h
    · exact pyIsDigit_lower_ne v hd 'f' (S "alse") (by decide) h
  · intro v h1 h2 h3
    unfold coerceArg
    rw [if_neg, if_neg]
    · rw [h3]
      exact Bool.false_ne_true
    · rintro (h | h)
      · exact h1 h
      · exact h2 h
  · intro a ha
    unfold parseArgsStr
    rw [if_pos ha]
  · intro a ha
    unfold parseArgsStr
    rw [if_neg ha]

/-- C9 witness: concrete coercions and argument blocks of both shapes. -/
theorem c9_witness :
    coerceArg (S "True") = .bool true
    ∧ coerceArg (S "false") = .bool false
    ∧ coerceArg (S "42") = .int 42
    ∧ coerceArg (S "abc") = .str (S "abc")
    ∧ parseArgsStr (S "\x7b\"k\": 1\x7d") = .dict [(S "k", .int 1)]
    ∧ parseArgsStr (S "a=1, b=\"x\", c=true")
        = .dict [(S "a", .int 1), (S "b", .str (S "x")), (S "c", .bool true)] :=
  ⟨c9_argument_coercion.1 (S "True") rfl,
   c9_argument_coercion.2.1 (S "false") rfl,
   c9_argument_coercion.2.2.1 (S "42") rfl,
   c9_argument_coercion.2.2.2.1 (S "abc") (by decide) (by decide) rfl,
   (c9_argument_coercion.2.2.2.2.1 (S "\x7b\"k\": 1\x7d") rfl).trans (by rfl),
   (c9_argument_coercion.2.2.2.2.2 (S "a=1, b=\"x\", c=true") (by decide)).trans (by rfl)⟩

/-! ## Registry filtering of extracted calls (claim C10) -/

/-- C10: every tool call returned by the extractor names a registered tool,
and a syntactically well-formed directive naming an unregistered tool
(`frobnicate`) produces no extracted call at all. -/
theorem c10_registered_tools :
    (∀ (s : Str) (c : ToolCall), c ∈ parse_tool_calls s → c.tool ∈ registryKeys)
    ∧ parse_tool_calls (S "TOOL_CALL: frobnicate(x=1)") = [] := by
  constructor
  · intro s c hc
    unfold parse_tool_calls at hc
    have hone : ∀ ms : List ReMatch, c ∈ ms.filterMap toolCallOfMatch →
        c.tool ∈ registryKeys := by
      intro ms hmem
      obtain ⟨m, _, hm⟩ := List.mem_filterMap.mp hmem
      simp only [toolCallOfMatch] at hm
      by_cases hr : m.g1 ∈ registryKeys
      · rw [if_pos hr] at hm
        injection hm with h2
        rw [← h2]
        exact hr
      · rw [if_neg hr] at hm
        exact Option.noConfusion hm
    rcases List.mem_append.mp hc with hc12 | hc3
    · rcases List.mem_append.mp hc12 with hc1 | hc2
      · exact hone _ hc1
      · exact hone _ hc2
    · exact hone _ hc3
  · rfl

/-- C10 witness: the single call extracted from a concrete directive names a
registered tool. -/
theorem c10_witness : S "git_status" ∈ registryKeys :=
  c10_registered_tools.1 (S "TOOL_CALL: git_status()")
    ⟨S "git_status", .dict [], S "TOOL_CALL: git_status()"⟩
    (by
      rw [show parse_tool_calls (S "TOOL_CALL: git_status()")
          = [⟨S "git_status", .dict [], S "TOOL_CALL: git_status()"⟩] from rfl]
      exact List.mem_singleton.mpr rfl)

end Mi8
